import Mathlib

/-!
Shallow embedding of the flat-file inventory module of this repository
(`PARCIAL 02/Semana 09/producto.py` and `PARCIAL 02/semana 10/inventario.py`).

Strings are modelled as lists of Unicode code points (`PyStr`), Python `int`
as `ℤ`, and Python `float` as `ℚ` (every binary float value is a rational
with a terminating decimal expansion; `reprFloat` renders that expansion the
way `repr`/`str` does in the decimal range exercised by the program).
Console output is modelled as a list of `Msg` events — one constructor per
`print` site that the persistence contract refers to — and the backing file
`inventario.txt`, together with the outcomes the operating system would give
to a read or a write, as an `Archivo` value.
-/

/-- Code points of a Python string. -/
abbrev PyStr := List ℕ

/-- Conversion from a Lean string literal to its code points. -/
def txt (s : String) : PyStr := s.toList.map Char.toNat

/-- ASCII whitespace recognised by `str.strip` (space, TAB, LF, CR, VT, FF). -/
def esEspacio (c : ℕ) : Bool := decide (c = 32 ∨ c = 9 ∨ c = 10 ∨ c = 13 ∨ c = 11 ∨ c = 12)

/-- Uppercase ASCII letter. -/
def esMayuscula (c : ℕ) : Bool := decide (65 ≤ c ∧ c ≤ 90)

/-- Lowercase ASCII letter. -/
def esMinuscula (c : ℕ) : Bool := decide (97 ≤ c ∧ c ≤ 122)

/-- Cased (alphabetic) character — ASCII model of Python's notion used by `str.title`. -/
def esAlfabetica (c : ℕ) : Bool := esMayuscula c || esMinuscula c

/-- ASCII decimal digit. -/
def esDigito (c : ℕ) : Bool := decide (48 ≤ c ∧ c ≤ 57)

/-- Lowercase a single character (ASCII model of `str.lower` per character). -/
def aMinuscula (c : ℕ) : ℕ := if esMayuscula c then c + 32 else c

/-- Uppercase a single character. -/
def aMayuscula (c : ℕ) : ℕ := if esMinuscula c then c - 32 else c

/-- Python `s.strip()`: drop whitespace from both ends. -/
def pyStrip (l : PyStr) : PyStr :=
  ((l.dropWhile esEspacio).reverse.dropWhile esEspacio).reverse

/-- Python `s.lower()` (ASCII model). -/
def minusculas (l : PyStr) : PyStr := l.map aMinuscula

/-- State-passing core of Python `s.title()`: the flag records whether the
previous character was cased. -/
def tituloAux : Bool → PyStr → PyStr
  | _, [] => []
  | b, c :: t =>
    if esAlfabetica c then (if b then aMinuscula c else aMayuscula c) :: tituloAux true t
    else c :: tituloAux false t

/-- Python `s.title()`. -/
def titulo (l : PyStr) : PyStr := tituloAux false l

/-- Helper for substring search: `hay` starts with `needle`. -/
def empiezaCon : PyStr → PyStr → Bool
  | [], _ => true
  | _ :: _, [] => false
  | a :: s, b :: t => a == b && empiezaCon s t

/-- Python `needle in hay` for strings (contiguous substring occurrence). -/
def contiene : PyStr → PyStr → Bool
  | needle, [] => needle.isEmpty
  | needle, c :: t => empiezaCon needle (c :: t) || contiene needle t

/-- Python `s.split(sep)` for a one-character separator. -/
def pySplit (sep : ℕ) : PyStr → List PyStr
  | [] => [[]]
  | c :: t =>
    if c = sep then [] :: pySplit sep t
    else
      match pySplit sep t with
      | [] => [[c]]
      | h :: r => (c :: h) :: r

/-- Decimal digits of `n`, most significant first (fuel-bounded division loop). -/
def strDeNatAux : ℕ → ℕ → PyStr
  | 0, _ => []
  | fuel + 1, n => if n < 10 then [48 + n] else strDeNatAux fuel (n / 10) ++ [48 + n % 10]

/-- Python `str(n)` for a natural number. -/
def strDeNat (n : ℕ) : PyStr := strDeNatAux (n + 1) n

/-- Python `str(i)` for an integer. -/
def strDeInt (i : ℤ) : PyStr :=
  if i < 0 then 45 :: strDeNat i.natAbs else strDeNat i.natAbs

/-- Numeric value of a digit string, read left to right. -/
def valorDigitos (l : PyStr) : ℕ := l.foldl (fun a c => a * 10 + (c - 48)) 0

/-- All characters are decimal digits. -/
def sonDigitos (l : PyStr) : Bool := l.all esDigito

/-- Python `int(s)`: optional surrounding whitespace, optional sign, one or
more decimal digits.  (Underscore separators and non-ASCII digits are outside
the model; the program never feeds them to `int`.) -/
def pyInt (l : PyStr) : Option ℤ :=
  match pyStrip l with
  | [] => none
  | c :: rest =>
    if c = 45 then
      if !rest.isEmpty && sonDigitos rest then some (-(valorDigitos rest : ℤ)) else none
    else if c = 43 then
      if !rest.isEmpty && sonDigitos rest then some (valorDigitos rest : ℤ) else none
    else if sonDigitos (c :: rest) then some (valorDigitos (c :: rest) : ℤ)
    else none

/-- Python `float(s)` on plain decimal notation `[sign] digits [. digits]`:
the exact rational value `sign * (ent + frac / 10 ^ |frac|)`, built with
`mkRat` over a common denominator.  (Exponent notation, `inf` and `nan` are
outside the model; the program's serializer never produces them in the
exercised range.) -/
def pyFloat (l : PyStr) : Option ℚ :=
  match pyStrip l with
  | [] => none
  | c :: rest =>
    let signo : ℤ := if c = 45 then -1 else 1
    let cuerpo : PyStr := if c = 45 || c = 43 then rest else c :: rest
    match pySplit 46 cuerpo with
    | [ent] =>
      if !ent.isEmpty && sonDigitos ent then
        some (mkRat (signo * valorDigitos ent) 1)
      else none
    | [ent, frac] =>
      if (!ent.isEmpty || !frac.isEmpty) && sonDigitos ent && sonDigitos frac then
        some (mkRat (signo * (valorDigitos ent * 10 ^ frac.length + valorDigitos frac))
          (10 ^ frac.length))
      else none
    | _ => none

/-- `q` has a terminating decimal expansion.  Every binary floating-point
value does, so this characterises the rationals that model Python floats. -/
def EsDecimal (q : ℚ) : Prop := q.den ∣ 10 ^ q.den

instance (q : ℚ) : Decidable (EsDecimal q) := by unfold EsDecimal; infer_instance

/-- Smallest exponent `k ≤ d` with `d ∣ 10 ^ k`; falls back to `d` itself
(never reached for a decimal-representable denominator). -/
def expDec (d : ℕ) : ℕ :=
  ((List.range (d + 1)).find? fun k => decide (d ∣ 10 ^ k)).getD d

/-- Python `repr`/`str` of a float: shortest exact decimal form — optional
sign, integer part, point, fractional part (`….0` for integral values). -/
def reprFloat (q : ℚ) : PyStr :=
  let k := expDec q.den
  let m : ℤ := q.num * ((10 : ℤ) ^ k / (q.den : ℤ))
  let a := m.natAbs
  let ent := strDeNat (a / 10 ^ k)
  let frac :=
    if k = 0 then [48]
    else List.replicate (k - (strDeNat (a % 10 ^ k)).length) 48 ++ strDeNat (a % 10 ^ k)
  (if m < 0 then [45] else []) ++ ent ++ [46] ++ frac

/-- A product record (`producto.py`): unique id, normalised name, stock
quantity and unit price. -/
structure Producto where
  id : ℤ
  nombre : PyStr
  cantidad : ℤ
  precio : ℚ
deriving DecidableEq, Repr

/-- `Producto.__init__`: validates the fields and normalises the name with
`strip().title()`; raising `ValueError` is modelled as `Except.error`. -/
def Producto.init (idProducto : ℤ) (nombre : PyStr) (cantidad : ℤ) (precio : ℚ) :
    Except String Producto :=
  if idProducto ≤ 0 then .error "El ID debe ser un número entero positivo"
  else if cantidad < 0 then .error "La cantidad no puede ser negativa"
  else if precio < 0 then .error "El precio no puede ser negativo"
  else .ok ⟨idProducto, titulo (pyStrip nombre), cantidad, precio⟩

/-- The `cantidad` setter: re-validates non-negativity; on success, the
record with the new stock (id and name untouched). -/
def Producto.setCantidad (p : Producto) (nuevaCantidad : ℤ) : Except String Producto :=
  if nuevaCantidad < 0 then .error "La cantidad no puede ser negativa"
  else .ok { p with cantidad := nuevaCantidad }

/-- The `precio` setter: re-validates non-negativity. -/
def Producto.setPrecio (p : Producto) (nuevoPrecio : ℚ) : Except String Producto :=
  if nuevoPrecio < 0 then .error "El precio no puede ser negativo"
  else .ok { p with precio := nuevoPrecio }

/-- The field delimiter `SEPARADOR = "|"` (code point 124). -/
def SEPARADOR : ℕ := 124

/-- Outcome the operating system gives a file operation: success,
`PermissionError`, or another `OSError`. -/
inductive ResultadoES where
  | ok
  | permiso
  | otroError
deriving DecidableEq, Repr

/-- The backing file `inventario.txt`: its contents (`none` = missing) and
the outcomes a read or a write would receive. -/
structure Archivo where
  contenido : Option PyStr
  lectura : ResultadoES
  escritura : ResultadoES
deriving DecidableEq, Repr

/-- Console messages: one constructor per `print` site of `inventario.py`
that the persistence and error-handling contract refers to. -/
inductive Msg where
  | infoNoEncontrado
  | infoCreado
  | errorPermisoCrear
  | errorCrear
  | errorPermisoLectura
  | errorLectura
  | advertenciaFormato (numLinea : ℕ)
  | advertenciaDatos (numLinea : ℕ)
  | advertenciaDuplicado (numLinea : ℕ) (idProducto : ℤ)
  | infoCargados (n : ℕ)
  | infoSinProductos
  | errorPermisoGuardar
  | errorGuardar
  | errorYaExiste (idProducto : ℤ)
  | okAgregado (idProducto : ℤ)
  | errorNoEncontrado (idProducto : ℤ)
  | okEliminado (idProducto : ℤ)
  | errorValorCantidad
  | okCantidad (idProducto : ℤ)
  | errorValorPrecio
  | okPrecio (idProducto : ℤ)
deriving DecidableEq, Repr

/-- Python `dict` lookup: the value bound to `key`, if any. -/
def dictLookup : List (ℤ × Producto) → ℤ → Option Producto
  | [], _ => none
  | (k, v) :: t, key => if k = key then some v else dictLookup t key

/-- Python `key in dict`. -/
def dictContains (m : List (ℤ × Producto)) (key : ℤ) : Bool :=
  (dictLookup m key).isSome

/-- Python `dict` assignment `m[key] = v`. -/
def dictInsert : List (ℤ × Producto) → ℤ → Producto → List (ℤ × Producto)
  | [], key, v => [(key, v)]
  | (k, w) :: t, key, v =>
    if k = key then (key, v) :: t else (k, w) :: dictInsert t key v

/-- The removal effect of Python `dict.pop(key)`. -/
def dictRemove : List (ℤ × Producto) → ℤ → List (ℤ × Producto)
  | [], _ => []
  | (k, w) :: t, key => if k = key then t else (k, w) :: dictRemove t key

/-- The in-memory store: the ordered list `_productos` and the id index
`_indice_por_id`. -/
structure Inventario where
  productos : List Producto
  indicePorId : List (ℤ × Producto)
deriving DecidableEq, Repr

/-- The store before any load. -/
def invVacio : Inventario := ⟨[], []⟩

/-- One serialized line `id|nombre|cantidad|precio` (without the newline),
as built by `_guardar_en_archivo`. -/
def lineaDe (p : Producto) : PyStr :=
  strDeInt p.id ++ [SEPARADOR] ++ p.nombre ++ [SEPARADOR] ++
    strDeInt p.cantidad ++ [SEPARADOR] ++ reprFloat p.precio

/-- Whole-file serialization: one line per product, each ending in `\n`. -/
def serializar (ps : List Producto) : PyStr :=
  (ps.map fun p => lineaDe p ++ [10]).flatten

/-- `_guardar_en_archivo`: overwrite the whole file with the current
snapshot; on `PermissionError`/`OSError` report and leave the file alone. -/
def guardarEnArchivo (a : Archivo) (productos : List Producto) : Archivo × List Msg :=
  match a.escritura with
  | .ok => ({ a with contenido := some (serializar productos) }, [])
  | .permiso => (a, [Msg.errorPermisoGuardar])
  | .otroError => (a, [Msg.errorGuardar])

/-- `_crear_archivo_vacio`. -/
def crearArchivoVacio (a : Archivo) : Archivo × List Msg :=
  match a.escritura with
  | .ok => ({ a with contenido := some [] }, [Msg.infoCreado])
  | .permiso => (a, [Msg.errorPermisoCrear])
  | .otroError => (a, [Msg.errorCrear])

/-- Outcome of one iteration of the `_cargar_desde_archivo` line loop. -/
inductive ResultadoLinea where
  | vacia
  | malFormato
  | datosInvalidos
  | duplicado (idProducto : ℤ)
  | valida (p : Producto)
deriving DecidableEq, Repr

/-- Body of the `_cargar_desde_archivo` loop for a single raw line: strip,
skip blanks, split on the delimiter into exactly four fields, convert the
numeric fields, build the `Producto`, reject duplicate ids. -/
def pasoLinea (indice : List (ℤ × Producto)) (lineaCruda : PyStr) : ResultadoLinea :=
  let linea := pyStrip lineaCruda
  if linea.isEmpty then .vacia
  else
    match pySplit SEPARADOR linea with
    | [p0, p1, p2, p3] =>
      match pyInt p0, pyInt p2, pyFloat p3 with
      | some idProd, some cant, some prec =>
        match Producto.init idProd p1 cant prec with
        | .error _ => .datosInvalidos
        | .ok producto =>
          if dictContains indice producto.id then .duplicado producto.id
          else .valida producto
      | _, _, _ => .datosInvalidos
    | _ => .malFormato

/-- The `_cargar_desde_archivo` line loop: lines are numbered from 1, bad
lines emit a warning and the loop continues, good lines are appended to both
structures and counted. -/
def procesarLineas : Inventario → ℕ → ℕ → List PyStr → Inventario × List Msg × ℕ
  | inv, _, cargados, [] => (inv, [], cargados)
  | inv, num, cargados, l :: rest =>
    match pasoLinea inv.indicePorId l with
    | .vacia => procesarLineas inv (num + 1) cargados rest
    | .malFormato =>
      let r := procesarLineas inv (num + 1) cargados rest
      (r.1, Msg.advertenciaFormato num :: r.2.1, r.2.2)
    | .datosInvalidos =>
      let r := procesarLineas inv (num + 1) cargados rest
      (r.1, Msg.advertenciaDatos num :: r.2.1, r.2.2)
    | .duplicado i =>
      let r := procesarLineas inv (num + 1) cargados rest
      (r.1, Msg.advertenciaDuplicado num i :: r.2.1, r.2.2)
    | .valida p =>
      procesarLineas
        ⟨inv.productos ++ [p], dictInsert inv.indicePorId p.id p⟩
        (num + 1) (cargados + 1) rest

/-- `_cargar_desde_archivo`: missing file → create it empty and start empty;
unreadable file → start empty; otherwise run the line loop over the file's
lines and report how many products were loaded. -/
def cargarDesdeArchivo (a : Archivo) : Inventario × Archivo × List Msg :=
  match a.contenido with
  | none =>
    let r := crearArchivoVacio a
    (invVacio, r.1, Msg.infoNoEncontrado :: r.2)
  | some cont =>
    match a.lectura with
    | .permiso => (invVacio, a, [Msg.errorPermisoLectura])
    | .otroError => (invVacio, a, [Msg.errorLectura])
    | .ok =>
      let r := procesarLineas invVacio 1 0 (pySplit 10 cont)
      (r.1, a,
        r.2.1 ++ [if 0 < r.2.2 then Msg.infoCargados r.2.2 else Msg.infoSinProductos])

/-- `Inventario.__init__`: start empty and load from the backing file. -/
def inventarioInicial (a : Archivo) : Inventario × Archivo × List Msg :=
  cargarDesdeArchivo a

/-- `agregar_producto`: refuse a duplicate id; otherwise append to the list,
index by id, persist the snapshot and report success. -/
def agregarProducto (inv : Inventario) (a : Archivo) (producto : Producto) :
    Bool × Inventario × Archivo × List Msg :=
  if dictContains inv.indicePorId producto.id then
    (false, inv, a, [Msg.errorYaExiste producto.id])
  else
    let inv' : Inventario :=
      ⟨inv.productos ++ [producto], dictInsert inv.indicePorId producto.id producto⟩
    let r := guardarEnArchivo a inv'.productos
    (true, inv', r.1, r.2 ++ [Msg.okAgregado producto.id])

/-- `eliminar_producto`: refuse an absent id; otherwise pop it from the
index, remove the (aliased) record from the list, persist and report. -/
def eliminarProducto (inv : Inventario) (a : Archivo) (idProducto : ℤ) :
    Bool × Inventario × Archivo × List Msg :=
  match dictLookup inv.indicePorId idProducto with
  | none => (false, inv, a, [Msg.errorNoEncontrado idProducto])
  | some producto =>
    let inv' : Inventario :=
      ⟨inv.productos.erase producto, dictRemove inv.indicePorId idProducto⟩
    let r := guardarEnArchivo a inv'.productos
    (true, inv', r.1, r.2 ++ [Msg.okEliminado idProducto])

/-- In-place mutation of one record object, seen through every alias held by
the list. -/
def mutar (l : List Producto) (viejo nuevo : Producto) : List Producto :=
  l.map fun q => if q = viejo then nuevo else q

/-- The same mutation as seen through the id index. -/
def mutarDict (m : List (ℤ × Producto)) (viejo nuevo : Producto) :
    List (ℤ × Producto) :=
  m.map fun e => if e.2 = viejo then (e.1, nuevo) else e

/-- `actualizar_cantidad`: absent id fails; a negative value makes the
setter raise, which is caught and reported without any state change. -/
def actualizarCantidad (inv : Inventario) (a : Archivo) (idProducto nuevaCantidad : ℤ) :
    Bool × Inventario × Archivo × List Msg :=
  match dictLookup inv.indicePorId idProducto with
  | none => (false, inv, a, [Msg.errorNoEncontrado idProducto])
  | some producto =>
    match producto.setCantidad nuevaCantidad with
    | .error _ => (false, inv, a, [Msg.errorValorCantidad])
    | .ok p' =>
      let inv' : Inventario :=
        ⟨mutar inv.productos producto p', mutarDict inv.indicePorId producto p'⟩
      let r := guardarEnArchivo a inv'.productos
      (true, inv', r.1, r.2 ++ [Msg.okCantidad idProducto])

/-- `actualizar_precio`: same shape as `actualizar_cantidad`. -/
def actualizarPrecio (inv : Inventario) (a : Archivo) (idProducto : ℤ) (nuevoPrecio : ℚ) :
    Bool × Inventario × Archivo × List Msg :=
  match dictLookup inv.indicePorId idProducto with
  | none => (false, inv, a, [Msg.errorNoEncontrado idProducto])
  | some producto =>
    match producto.setPrecio nuevoPrecio with
    | .error _ => (false, inv, a, [Msg.errorValorPrecio])
    | .ok p' =>
      let inv' : Inventario :=
        ⟨mutar inv.productos producto p', mutarDict inv.indicePorId producto p'⟩
      let r := guardarEnArchivo a inv'.productos
      (true, inv', r.1, r.2 ++ [Msg.okPrecio idProducto])

/-- `buscar_por_nombre`: lowercase and strip the query, then keep, in order,
the products whose lowercased name contains it.  Pure: touches neither the
store nor the file. -/
def buscarPorNombre (inv : Inventario) (texto : PyStr) : List Producto :=
  let t := pyStrip (minusculas texto)
  inv.productos.filter fun p => contiene t (minusculas p.nombre)

/-- `contar_productos`. -/
def contarProductos (inv : Inventario) : ℕ := inv.productos.length

/-- The spec's store invariant: the ordered list and the id index hold
exactly the same set of records — every product of the list is indexed
under its id, and every index entry points back into the list. -/
def coherente (inv : Inventario) : Prop :=
  (∀ p ∈ inv.productos, dictLookup inv.indicePorId p.id = some p) ∧
  (∀ e ∈ inv.indicePorId, e.2 ∈ inv.productos ∧ e.2.id = e.1)

/-- The strengthened invariant the code actually maintains: ids are unique
in the list, keys are unique in the index, and the two structures mirror
each other. -/
def bienFormado (inv : Inventario) : Prop :=
  (inv.productos.map Producto.id).Nodup ∧
  (inv.indicePorId.map Prod.fst).Nodup ∧
  (∀ p ∈ inv.productos, (p.id, p) ∈ inv.indicePorId) ∧
  (∀ e ∈ inv.indicePorId, e.2 ∈ inv.productos ∧ e.2.id = e.1)

instance (inv : Inventario) : Decidable (coherente inv) := by
  unfold coherente; infer_instance

instance (inv : Inventario) : Decidable (bienFormado inv) := by
  unfold bienFormado; infer_instance

/-- One user-level mutation, as dispatched by the console menu. -/
inductive Operacion where
  | agregar (p : Producto)
  | eliminar (idProducto : ℤ)
  | actualizarCant (idProducto nuevaCantidad : ℤ)
  | actualizarPrec (idProducto : ℤ) (nuevoPrecio : ℚ)
deriving DecidableEq, Repr

/-- Run one operation against the store and the backing file. -/
def ejecutar (s : Inventario × Archivo) : Operacion → Inventario × Archivo
  | .agregar p => ((agregarProducto s.1 s.2 p).2.1, (agregarProducto s.1 s.2 p).2.2.1)
  | .eliminar i => ((eliminarProducto s.1 s.2 i).2.1, (eliminarProducto s.1 s.2 i).2.2.1)
  | .actualizarCant i n =>
    ((actualizarCantidad s.1 s.2 i n).2.1, (actualizarCantidad s.1 s.2 i n).2.2.1)
  | .actualizarPrec i q =>
    ((actualizarPrecio s.1 s.2 i q).2.1, (actualizarPrecio s.1 s.2 i q).2.2.1)

/-- The "Widget" record of the scenarios (id 1, qty 5, price 9.99). -/
def productoWidget : Producto := ⟨1, txt "Widget", 5, mkRat 999 100⟩

/-- The "Gadget" record of the search scenario (id 2, qty 3, price 19.9). -/
def productoGadget : Producto := ⟨2, txt "Gadget", 3, mkRat 199 10⟩

/-- A store holding Widget and Gadget, as in the search scenario. -/
def invWG : Inventario :=
  ⟨[productoWidget, productoGadget], [(1, productoWidget), (2, productoGadget)]⟩

/-- The search operation as the spec sentence literally words it: keep the
products whose name contains the given text under case-insensitive
comparison — without trimming the query first. -/
def buscarSegunEnunciado (inv : Inventario) (texto : PyStr) : List Producto :=
  inv.productos.filter fun p => contiene (minusculas texto) (minusculas p.nombre)

/-! ### Association-list (Python dict) lemmas -/

theorem dictLookup_some_mem {m : List (ℤ × Producto)} {k : ℤ} {v : Producto}
    (h : dictLookup m k = some v) : (k, v) ∈ m := by
  induction m with
  | nil => simp [dictLookup] at h
  | cons e t ih =>
    obtain ⟨k', v'⟩ := e
    by_cases hk : k' = k
    · subst hk
      simp [dictLookup] at h
      simp [h]
    · simp [dictLookup, hk] at h
      exact List.mem_cons_of_mem _ (ih h)

theorem dictLookup_eq_none_iff {m : List (ℤ × Producto)} {k : ℤ} :
    dictLookup m k = none ↔ k ∉ m.map Prod.fst := by
  induction m with
  | nil => simp [dictLookup]
  | cons e t ih =>
    obtain ⟨k', v'⟩ := e
    by_cases hk : k' = k
    · subst hk; simp [dictLookup]
    · simp [dictLookup, hk, ih, Ne.symm hk]

theorem dictLookup_eq_some_of_mem {m : List (ℤ × Producto)} {k : ℤ} {v : Producto}
    (hn : (m.map Prod.fst).Nodup) (h : (k, v) ∈ m) : dictLookup m k = some v := by
  induction m with
  | nil => simp at h
  | cons e t ih =>
    obtain ⟨k', v'⟩ := e
    simp only [List.map_cons, List.nodup_cons] at hn
    rcases List.mem_cons.mp h with h1 | h1
    · injection h1 with h2 h3
      subst h2; subst h3
      simp [dictLookup]
    · have hk : k' ≠ k := by
        rintro rfl
        exact hn.1 (List.mem_map.mpr ⟨(k', v), h1, rfl⟩)
      simp [dictLookup, hk]
      exact ih hn.2 h1

theorem dictContains_false_iff {m : List (ℤ × Producto)} {k : ℤ} :
    dictContains m k = false ↔ dictLookup m k = none := by
  unfold dictContains
  cases dictLookup m k <;> simp

theorem dictContains_true_iff {m : List (ℤ × Producto)} {k : ℤ} :
    dictContains m k = true ↔ ∃ v, dictLookup m k = some v := by
  unfold dictContains
  cases dictLookup m k <;> simp

theorem dictInsert_eq_append {m : List (ℤ × Producto)} {k : ℤ} {v : Producto}
    (h : dictLookup m k = none) : dictInsert m k v = m ++ [(k, v)] := by
  induction m with
  | nil => simp [dictInsert]
  | cons e t ih =>
    obtain ⟨k', v'⟩ := e
    by_cases hk : k' = k
    · subst hk; simp [dictLookup] at h
    · simp [dictLookup, hk] at h
      simp [dictInsert, hk, ih h]

theorem map_fst_dictRemove_sublist (m : List (ℤ × Producto)) (k : ℤ) :
    ((dictRemove m k).map Prod.fst).Sublist (m.map Prod.fst) := by
  induction m with
  | nil => simp [dictRemove]
  | cons e t ih =>
    obtain ⟨k', v'⟩ := e
    by_cases hk : k' = k
    · subst hk
      simp [dictRemove]
    · simpa [dictRemove, hk] using List.Sublist.cons₂ k' ih

theorem mem_dictRemove_iff {m : List (ℤ × Producto)} {k : ℤ} {e : ℤ × Producto}
    (hn : (m.map Prod.fst).Nodup) : e ∈ dictRemove m k ↔ e ∈ m ∧ e.1 ≠ k := by
  induction m with
  | nil => simp [dictRemove]
  | cons e' t ih =>
    obtain ⟨k', v'⟩ := e'
    simp only [List.map_cons, List.nodup_cons] at hn
    by_cases hk : k' = k
    · subst hk
      simp only [dictRemove, if_pos rfl]
      constructor
      · intro he
        refine ⟨List.mem_cons_of_mem _ he, ?_⟩
        rintro rfl
        exact hn.1 (List.mem_map.mpr ⟨e, he, rfl⟩)
      · rintro ⟨he, hne⟩
        rcases List.mem_cons.mp he with rfl | h1
        · exact absurd rfl hne
        · exact h1
    · simp only [dictRemove, if_neg hk, List.mem_cons, ih hn.2]
      constructor
      · rintro (rfl | ⟨h1, h2⟩)
        · exact ⟨Or.inl rfl, hk⟩
        · exact ⟨Or.inr h1, h2⟩
      · rintro ⟨rfl | h1, h2⟩
        · exact Or.inl rfl
        · exact Or.inr ⟨h1, h2⟩

theorem dictLookup_dictRemove_self {m : List (ℤ × Producto)} {k : ℤ}
    (hn : (m.map Prod.fst).Nodup) : dictLookup (dictRemove m k) k = none := by
  cases h : dictLookup (dictRemove m k) k with
  | none => rfl
  | some v =>
    have hm := dictLookup_some_mem h
    have := (mem_dictRemove_iff hn).mp hm
    exact absurd rfl this.2

/-! ### Preservation of the store invariant -/

theorem bienFormado_invVacio : bienFormado invVacio := by
  simp [bienFormado, invVacio]

theorem id_inj_de_nodup {l : List Producto} (hn : (l.map Producto.id).Nodup)
    {p q : Producto} (hp : p ∈ l) (hq : q ∈ l) (h : p.id = q.id) : p = q := by
  induction l with
  | nil => simp at hp
  | cons x t ih =>
    simp only [List.map_cons, List.nodup_cons] at hn
    rcases List.mem_cons.mp hp with rfl | hp1
    · rcases List.mem_cons.mp hq with rfl | hq1
      · rfl
      · exact absurd (List.mem_map.mpr ⟨q, hq1, h.symm⟩) hn.1
    · rcases List.mem_cons.mp hq with rfl | hq1
      · exact absurd (List.mem_map.mpr ⟨p, hp1, h⟩) hn.1
      · exact ih hn.2 hp1 hq1

theorem bienFormado_insertar {inv : Inventario} {p : Producto}
    (h : bienFormado inv) (hc : dictContains inv.indicePorId p.id = false) :
    bienFormado ⟨inv.productos ++ [p], dictInsert inv.indicePorId p.id p⟩ := by
  obtain ⟨h1, h2, h3, h4⟩ := h
  have hnone : dictLookup inv.indicePorId p.id = none := dictContains_false_iff.mp hc
  have hkey : p.id ∉ inv.indicePorId.map Prod.fst := dictLookup_eq_none_iff.mp hnone
  have hins : dictInsert inv.indicePorId p.id p = inv.indicePorId ++ [(p.id, p)] :=
    dictInsert_eq_append hnone
  have hidnotin : p.id ∉ inv.productos.map Producto.id := by
    intro hmem
    obtain ⟨q, hq, hqid⟩ := List.mem_map.mp hmem
    exact hkey (List.mem_map.mpr ⟨(q.id, q), h3 q hq, hqid⟩)
  refine ⟨?_, ?_, ?_, ?_⟩
  · simp only [List.map_append, List.map_cons, List.map_nil]
    refine List.Nodup.append h1 (List.nodup_singleton _) ?_
    intro x hx hxp
    simp at hxp
    exact hidnotin (hxp ▸ hx)
  · rw [hins]
    simp only [List.map_append, List.map_cons, List.map_nil]
    refine List.Nodup.append h2 (List.nodup_singleton _) ?_
    intro x hx hxp
    simp at hxp
    exact hkey (hxp ▸ hx)
  · intro q hq
    rw [hins]
    rcases List.mem_append.mp hq with hq1 | hq1
    · exact List.mem_append.mpr (Or.inl (h3 q hq1))
    · simp at hq1
      subst hq1
      simp
  · intro e he
    rw [hins] at he
    rcases List.mem_append.mp he with he1 | he1
    · obtain ⟨hm, hid⟩ := h4 e he1
      exact ⟨List.mem_append.mpr (Or.inl hm), hid⟩
    · simp at he1
      subst he1
      simp

theorem bienFormado_quitar {inv : Inventario} {i : ℤ} {p : Producto}
    (h : bienFormado inv) (hl : dictLookup inv.indicePorId i = some p) :
    bienFormado ⟨inv.productos.erase p, dictRemove inv.indicePorId i⟩ := by
  obtain ⟨h1, h2, h3, h4⟩ := h
  have hmem : (i, p) ∈ inv.indicePorId := dictLookup_some_mem hl
  have hp := h4 _ hmem
  have hpl : p ∈ inv.productos := hp.1
  have hpid : p.id = i := hp.2
  have hlnodup : inv.productos.Nodup := List.Nodup.of_map _ h1
  refine ⟨?_, ?_, ?_, ?_⟩
  · exact List.Nodup.sublist (List.Sublist.map _ (List.erase_sublist _ _)) h1
  · exact List.Nodup.sublist (map_fst_dictRemove_sublist _ _) h2
  · intro q hq
    have hq' := (List.Nodup.mem_erase_iff hlnodup).mp hq
    rw [mem_dictRemove_iff h2]
    refine ⟨h3 q hq'.2, ?_⟩
    intro hqi
    have hqi' : q.id = i := hqi
    exact hq'.1 (id_inj_de_nodup h1 hq'.2 hpl (by rw [hqi', hpid]))
  · intro e he
    have he' := (mem_dictRemove_iff h2).mp he
    obtain ⟨hm, hid⟩ := h4 e he'.1
    refine ⟨(List.Nodup.mem_erase_iff hlnodup).mpr ⟨?_, hm⟩, hid⟩
    intro hep
    exact he'.2 (by rw [← hid, hep, hpid])

theorem bienFormado_mutar {inv : Inventario} {viejo nuevo : Producto}
    (h : bienFormado inv) (hid : nuevo.id = viejo.id) :
    bienFormado ⟨mutar inv.productos viejo nuevo, mutarDict inv.indicePorId viejo nuevo⟩ := by
  obtain ⟨h1, h2, h3, h4⟩ := h
  have hmapid : (mutar inv.productos viejo nuevo).map Producto.id
      = inv.productos.map Producto.id := by
    unfold mutar
    rw [List.map_map]
    refine List.map_congr_left fun q _ => ?_
    by_cases hq : q = viejo <;> simp [hq, hid]
  have hmapfst : (mutarDict inv.indicePorId viejo nuevo).map Prod.fst
      = inv.indicePorId.map Prod.fst := by
    unfold mutarDict
    rw [List.map_map]
    refine List.map_congr_left fun e _ => ?_
    by_cases he : e.2 = viejo <;> simp [he]
  refine ⟨hmapid ▸ h1, hmapfst ▸ h2, ?_, ?_⟩
  · intro q hq
    obtain ⟨q₀, hq₀, rfl⟩ := List.mem_map.mp hq
    have := h3 q₀ hq₀
    unfold mutarDict
    by_cases hc : q₀ = viejo
    · subst hc
      refine List.mem_map.mpr ⟨(q₀.id, q₀), this, ?_⟩
      simp [hid]
    · refine List.mem_map.mpr ⟨(q₀.id, q₀), this, ?_⟩
      simp [hc]
  · intro e he
    obtain ⟨e₀, he₀, rfl⟩ := List.mem_map.mp he
    obtain ⟨hm, hidm⟩ := h4 e₀ he₀
    by_cases hc : e₀.2 = viejo
    · simp only [hc, if_pos rfl]
      exact ⟨List.mem_map.mpr ⟨e₀.2, hm, by simp [hc]⟩, by simp [hid, ← hidm, hc]⟩
    · simp only [if_neg hc]
      exact ⟨List.mem_map.mpr ⟨e₀.2, hm, by simp [hc]⟩, hidm⟩

theorem coherente_de_bienFormado {inv : Inventario} (h : bienFormado inv) :
    coherente inv := by
  obtain ⟨h1, h2, h3, h4⟩ := h
  exact ⟨fun p hp => dictLookup_eq_some_of_mem h2 (h3 p hp), h4⟩

theorem pasoLinea_valida_contains {m : List (ℤ × Producto)} {l : PyStr} {p : Producto}
    (h : pasoLinea m l = .valida p) : dictContains m p.id = false := by
  unfold pasoLinea at h
  dsimp only at h
  split at h
  · exact absurd h (by simp)
  · split at h
    · split at h
      · split at h
        · exact absurd h (by simp)
        · split at h
          · exact absurd h (by simp)
          · cases h
            simp_all
      · exact absurd h (by simp)
    · exact absurd h (by simp)

theorem bienFormado_agregar {inv : Inventario} {a : Archivo} {p : Producto}
    (h : bienFormado inv) : bienFormado (agregarProducto inv a p).2.1 := by
  unfold agregarProducto
  cases hc : dictContains inv.indicePorId p.id with
  | true => simpa [hc] using h
  | false =>
    simp only [hc, Bool.false_eq_true, if_false]
    exact bienFormado_insertar h hc

theorem bienFormado_eliminar {inv : Inventario} {a : Archivo} {i : ℤ}
    (h : bienFormado inv) : bienFormado (eliminarProducto inv a i).2.1 := by
  unfold eliminarProducto
  cases hl : dictLookup inv.indicePorId i with
  | none => exact h
  | some p => exact bienFormado_quitar h hl

theorem bienFormado_actualizarCantidad {inv : Inventario} {a : Archivo} {i n : ℤ}
    (h : bienFormado inv) : bienFormado (actualizarCantidad inv a i n).2.1 := by
  unfold actualizarCantidad
  cases hl : dictLookup inv.indicePorId i with
  | none => exact h
  | some p =>
    unfold Producto.setCantidad
    by_cases hn : n < 0
    · simpa [hn] using h
    · simp only [hn, if_false]
      exact bienFormado_mutar h rfl

theorem bienFormado_actualizarPrecio {inv : Inventario} {a : Archivo} {i : ℤ} {q : ℚ}
    (h : bienFormado inv) : bienFormado (actualizarPrecio inv a i q).2.1 := by
  unfold actualizarPrecio
  cases hl : dictLookup inv.indicePorId i with
  | none => exact h
  | some p =>
    unfold Producto.setPrecio
    by_cases hq : q < 0
    · simpa [hq] using h
    · simp only [hq, if_false]
      exact bienFormado_mutar h rfl

theorem bienFormado_ejecutar {s : Inventario × Archivo} (h : bienFormado s.1)
    (op : Operacion) : bienFormado (ejecutar s op).1 := by
  cases op with
  | agregar p => exact bienFormado_agregar h
  | eliminar i => exact bienFormado_eliminar h
  | actualizarCant i n => exact bienFormado_actualizarCantidad h
  | actualizarPrec i q => exact bienFormado_actualizarPrecio h

theorem bienFormado_procesarLineas (inv : Inventario) (num carg : ℕ) (ls : List PyStr)
    (h : bienFormado inv) : bienFormado (procesarLineas inv num carg ls).1 := by
  induction ls generalizing inv num carg with
  | nil => exact h
  | cons l rest ih =>
    unfold procesarLineas
    cases hp : pasoLinea inv.indicePorId l with
    | vacia => exact ih _ _ _ h
    | malFormato => exact ih _ _ _ h
    | datosInvalidos => exact ih _ _ _ h
    | duplicado i => exact ih _ _ _ h
    | valida p => exact ih _ _ _ (bienFormado_insertar h (pasoLinea_valida_contains hp))

theorem bienFormado_cargar (a : Archivo) : bienFormado (cargarDesdeArchivo a).1 := by
  unfold cargarDesdeArchivo
  cases a.contenido with
  | none => exact bienFormado_invVacio
  | some cont =>
    cases a.lectura with
    | ok => exact bienFormado_procesarLineas _ _ _ _ bienFormado_invVacio
    | permiso => exact bienFormado_invVacio
    | otroError => exact bienFormado_invVacio

theorem bienFormado_fold (ops : List Operacion) (s : Inventario × Archivo)
    (h : bienFormado s.1) : bienFormado (ops.foldl ejecutar s).1 := by
  induction ops generalizing s with
  | nil => exact h
  | cons op rest ih => exact ih _ (bienFormado_ejecutar h op)

/-- C1: after the startup load and any sequence of add / remove /
update-quantity / update-price operations, the ordered product list and the
id index contain exactly the same set of records: every listed product is
indexed under its own id, and every index entry points back into the list —
no orphans in either structure. -/
theorem C1_lista_e_indice_coherentes (a : Archivo) (ops : List Operacion) :
    coherente (ops.foldl ejecutar ((cargarDesdeArchivo a).1, (cargarDesdeArchivo a).2.1)).1 :=
  coherente_de_bienFormado (bienFormado_fold ops _ (bienFormado_cargar a))

/-- C4: adding a product whose id is already present reports failure and
returns the store (list, index, hence count) and the file exactly as they
were; adding a fresh id appends to the ordered list, inserts into the id
map, and reports success. -/
theorem C4_agregar_id_duplicado (inv : Inventario) (a : Archivo) (p : Producto) :
    (dictContains inv.indicePorId p.id = true →
      agregarProducto inv a p = (false, inv, a, [Msg.errorYaExiste p.id])) ∧
    (dictContains inv.indicePorId p.id = false →
      (agregarProducto inv a p).1 = true ∧
      (agregarProducto inv a p).2.1.productos = inv.productos ++ [p] ∧
      (agregarProducto inv a p).2.1.indicePorId = dictInsert inv.indicePorId p.id p) := by
  constructor
  · intro hc
    simp [agregarProducto, hc]
  · intro hc
    simp [agregarProducto, hc]

/-- Witness for C4: a duplicate-id add on a one-product store fails and
leaves everything unchanged; a fresh-id add on the empty store succeeds. -/
theorem C4_agregar_id_duplicado_witness :
    agregarProducto ⟨[⟨1, txt "Widget", 5, mkRat 999 100⟩],
        [(1, ⟨1, txt "Widget", 5, mkRat 999 100⟩)]⟩ ⟨some [], .ok, .ok⟩
        ⟨1, txt "Gadget", 3, mkRat 199 10⟩
      = (false, ⟨[⟨1, txt "Widget", 5, mkRat 999 100⟩],
          [(1, ⟨1, txt "Widget", 5, mkRat 999 100⟩)]⟩, ⟨some [], .ok, .ok⟩,
          [Msg.errorYaExiste 1]) ∧
    (agregarProducto invVacio ⟨some [], .ok, .ok⟩ ⟨1, txt "Widget", 5, mkRat 999 100⟩).1
      = true :=
  ⟨(C4_agregar_id_duplicado _ _ _).1 (by decide),
    ((C4_agregar_id_duplicado invVacio ⟨some [], .ok, .ok⟩ _).2 (by decide)).1⟩

/-- C6: construction fails with a validation error exactly when id ≤ 0,
quantity < 0 or price < 0, and a failed construction yields no record; a
successful construction stores the trimmed, title-cased name; the setters
reject negative quantities/prices yielding no new record, and a successful
setter call changes only the targeted field — never the id or the name. -/
theorem C6_validacion_producto (i : ℤ) (n : PyStr) (c : ℤ) (q : ℚ) :
    ((∃ p, Producto.init i n c q = .ok p) ↔ 0 < i ∧ 0 ≤ c ∧ 0 ≤ q) ∧
    (∀ p, Producto.init i n c q = .ok p → p = ⟨i, titulo (pyStrip n), c, q⟩) ∧
    (∀ (p : Producto) (x : ℤ),
      ((∃ p', p.setCantidad x = .ok p') ↔ 0 ≤ x) ∧
      ∀ p', p.setCantidad x = .ok p' → p' = ⟨p.id, p.nombre, x, p.precio⟩) ∧
    (∀ (p : Producto) (y : ℚ),
      ((∃ p', p.setPrecio y = .ok p') ↔ 0 ≤ y) ∧
      ∀ p', p.setPrecio y = .ok p' → p' = ⟨p.id, p.nombre, p.cantidad, y⟩) := by
  refine ⟨?_, ?_, ?_, ?_⟩
  · unfold Producto.init
    split_ifs with h1 h2 h3
    · constructor
      · rintro ⟨p, hp⟩; simp at hp
      · rintro ⟨hi, -, -⟩; omega
    · constructor
      · rintro ⟨p, hp⟩; simp at hp
      · rintro ⟨-, hc, -⟩; omega
    · constructor
      · rintro ⟨p, hp⟩; simp at hp
      · rintro ⟨-, -, hq⟩; exact absurd hq (not_le.mpr h3)
    · exact ⟨fun _ => ⟨by omega, by omega, by linarith⟩, fun _ => ⟨_, rfl⟩⟩
  · intro p hp
    unfold Producto.init at hp
    split_ifs at hp
    all_goals simp at hp
    exact hp.symm
  · intro p x
    constructor
    · unfold Producto.setCantidad
      split_ifs with h1
      · constructor
        · rintro ⟨p', hp'⟩; simp at hp'
        · intro hx; omega
      · exact ⟨fun _ => by omega, fun _ => ⟨_, rfl⟩⟩
    · intro p' hp'
      unfold Producto.setCantidad at hp'
      split_ifs at hp'
      all_goals simp at hp'
      exact hp'.symm
  · intro p y
    constructor
    · unfold Producto.setPrecio
      split_ifs with h1
      · constructor
        · rintro ⟨p', hp'⟩; simp at hp'
        · intro hy; exact absurd hy (not_le.mpr h1)
      · exact ⟨fun _ => le_of_not_lt h1, fun _ => ⟨_, rfl⟩⟩
    · intro p' hp'
      unfold Producto.setPrecio at hp'
      split_ifs at hp'
      all_goals simp at hp'
      exact hp'.symm

/-- Witness for C6: a valid construction exists and normalises the name;
the quantity setter accepts a non-negative value. -/
theorem C6_validacion_producto_witness :
    (∃ p, Producto.init 1 (txt " widget ") 5 (mkRat 999 100) = .ok p) ∧
    (∀ p, Producto.init 1 (txt " widget ") 5 (mkRat 999 100) = .ok p →
      p = ⟨1, titulo (pyStrip (txt " widget ")), 5, mkRat 999 100⟩) ∧
    (∃ p', Producto.setCantidad ⟨1, txt "Widget", 5, mkRat 999 100⟩ 9 = .ok p') :=
  ⟨(C6_validacion_producto 1 (txt " widget ") 5 (mkRat 999 100)).1.mpr (by decide),
    (C6_validacion_producto 1 (txt " widget ") 5 (mkRat 999 100)).2.1,
    ((C6_validacion_producto 1 (txt " widget ") 5 (mkRat 999 100)).2.2.1
      ⟨1, txt "Widget", 5, mkRat 999 100⟩ 9).1.mpr (by decide)⟩

/-- C5: under the invariant the code maintains, removing a present id
succeeds, shrinks the count by exactly one, and makes both a subsequent
lookup and a subsequent removal of that id fail; removing an absent id
fails and returns the store and file untouched. -/
theorem C5_eliminar_por_id (inv : Inventario) (a : Archivo) (i : ℤ)
    (hbf : bienFormado inv) :
    (dictContains inv.indicePorId i = true →
      (eliminarProducto inv a i).1 = true ∧
      contarProductos (eliminarProducto inv a i).2.1 + 1 = contarProductos inv ∧
      dictLookup (eliminarProducto inv a i).2.1.indicePorId i = none ∧
      (eliminarProducto (eliminarProducto inv a i).2.1
        (eliminarProducto inv a i).2.2.1 i).1 = false) ∧
    (dictContains inv.indicePorId i = false →
      eliminarProducto inv a i = (false, inv, a, [Msg.errorNoEncontrado i])) := by
  constructor
  · intro hc
    obtain ⟨p, hl⟩ := dictContains_true_iff.mp hc
    have hmem : (i, p) ∈ inv.indicePorId := dictLookup_some_mem hl
    have hpl : p ∈ inv.productos := (hbf.2.2.2 _ hmem).1
    have hnone : dictLookup (dictRemove inv.indicePorId i) i = none :=
      dictLookup_dictRemove_self hbf.2.1
    unfold eliminarProducto
    rw [hl]
    refine ⟨rfl, ?_, ?_, ?_⟩
    · unfold contarProductos
      have hlen := List.length_erase_of_mem hpl
      have hpos := List.length_pos_of_mem hpl
      simp only [hlen]
      omega
    · exact hnone
    · simp only [hnone]
  · intro hc
    have hnone : dictLookup inv.indicePorId i = none := dictContains_false_iff.mp hc
    unfold eliminarProducto
    rw [hnone]

/-- Witness for C5 on a concrete one-product store: removal of the present
id 1 succeeds with the stated effects, removal of the absent id 2 fails. -/
theorem C5_eliminar_por_id_witness :
    ((eliminarProducto ⟨[⟨1, txt "Widget", 5, mkRat 999 100⟩],
        [(1, ⟨1, txt "Widget", 5, mkRat 999 100⟩)]⟩ ⟨some [], .ok, .ok⟩ 1).1 = true ∧
      contarProductos (eliminarProducto ⟨[⟨1, txt "Widget", 5, mkRat 999 100⟩],
        [(1, ⟨1, txt "Widget", 5, mkRat 999 100⟩)]⟩ ⟨some [], .ok, .ok⟩ 1).2.1 + 1 = 1 ∧
      dictLookup (eliminarProducto ⟨[⟨1, txt "Widget", 5, mkRat 999 100⟩],
        [(1, ⟨1, txt "Widget", 5, mkRat 999 100⟩)]⟩ ⟨some [], .ok, .ok⟩ 1).2.1.indicePorId 1
        = none ∧
      (eliminarProducto
        (eliminarProducto ⟨[⟨1, txt "Widget", 5, mkRat 999 100⟩],
          [(1, ⟨1, txt "Widget", 5, mkRat 999 100⟩)]⟩ ⟨some [], .ok, .ok⟩ 1).2.1
        (eliminarProducto ⟨[⟨1, txt "Widget", 5, mkRat 999 100⟩],
          [(1, ⟨1, txt "Widget", 5, mkRat 999 100⟩)]⟩ ⟨some [], .ok, .ok⟩ 1).2.2.1 1).1
        = false) ∧
    (eliminarProducto ⟨[⟨1, txt "Widget", 5, mkRat 999 100⟩],
        [(1, ⟨1, txt "Widget", 5, mkRat 999 100⟩)]⟩ ⟨some [], .ok, .ok⟩ 2).1 = false :=
  ⟨(C5_eliminar_por_id ⟨[⟨1, txt "Widget", 5, mkRat 999 100⟩],
      [(1, ⟨1, txt "Widget", 5, mkRat 999 100⟩)]⟩ ⟨some [], .ok, .ok⟩ 1 (by decide)).1
      (by decide),
    by
      rw [(C5_eliminar_por_id ⟨[⟨1, txt "Widget", 5, mkRat 999 100⟩],
        [(1, ⟨1, txt "Widget", 5, mkRat 999 100⟩)]⟩ ⟨some [], .ok, .ok⟩ 2 (by decide)).2
        (by decide)]⟩

/-- C9: when the snapshot write after a successful add fails (permission
denied or another I/O error), the failure is reported on the console, the
in-memory mutation is retained in both structures, and the on-disk contents
stay as they were. -/
theorem C9_fallo_de_guardado (inv : Inventario) (a : Archivo) (p : Producto)
    (hw : a.escritura ≠ .ok) (hc : dictContains inv.indicePorId p.id = false) :
    (agregarProducto inv a p).1 = true ∧
    (agregarProducto inv a p).2.1.productos = inv.productos ++ [p] ∧
    (agregarProducto inv a p).2.1.indicePorId = dictInsert inv.indicePorId p.id p ∧
    (agregarProducto inv a p).2.2.1.contenido = a.contenido ∧
    (Msg.errorPermisoGuardar ∈ (agregarProducto inv a p).2.2.2 ∨
      Msg.errorGuardar ∈ (agregarProducto inv a p).2.2.2) := by
  obtain ⟨cont, lect, escr⟩ := a
  cases escr with
  | ok => exact absurd rfl hw
  | permiso =>
    unfold agregarProducto
    simp only [hc, Bool.false_eq_true, if_false]
    unfold guardarEnArchivo
    simp
  | otroError =>
    unfold agregarProducto
    simp only [hc, Bool.false_eq_true, if_false]
    unfold guardarEnArchivo
    simp

/-- Witness for C9: adding to the empty store over a read-only file keeps
the memory change, leaves the file missing, and logs the permission error. -/
theorem C9_fallo_de_guardado_witness :
    (agregarProducto invVacio ⟨some [], .ok, .permiso⟩
      ⟨1, txt "Widget", 5, mkRat 999 100⟩).1 = true ∧
    (agregarProducto invVacio ⟨some [], .ok, .permiso⟩
      ⟨1, txt "Widget", 5, mkRat 999 100⟩).2.2.1.contenido = some [] ∧
    (Msg.errorPermisoGuardar ∈ (agregarProducto invVacio ⟨some [], .ok, .permiso⟩
      ⟨1, txt "Widget", 5, mkRat 999 100⟩).2.2.2 ∨
      Msg.errorGuardar ∈ (agregarProducto invVacio ⟨some [], .ok, .permiso⟩
      ⟨1, txt "Widget", 5, mkRat 999 100⟩).2.2.2) :=
  ⟨(C9_fallo_de_guardado invVacio ⟨some [], .ok, .permiso⟩
      ⟨1, txt "Widget", 5, mkRat 999 100⟩ (by decide) (by decide)).1,
    (C9_fallo_de_guardado invVacio ⟨some [], .ok, .permiso⟩
      ⟨1, txt "Widget", 5, mkRat 999 100⟩ (by decide) (by decide)).2.2.2.1,
    (C9_fallo_de_guardado invVacio ⟨some [], .ok, .permiso⟩
      ⟨1, txt "Widget", 5, mkRat 999 100⟩ (by decide) (by decide)).2.2.2.2⟩

/-! ### Search lemmas and claims C8, C10 -/

theorem contiene_vacia (hay : PyStr) : contiene [] hay = true := by
  cases hay <;> simp [contiene, empiezaCon]

theorem esEspacio_no_mayuscula {c : ℕ} (h : esEspacio c = true) :
    esMayuscula c = false := by
  unfold esEspacio at h
  unfold esMayuscula
  simp only [decide_eq_true_eq] at h
  simp only [decide_eq_false_iff_not]
  omega

theorem minusculas_de_espacios {t : PyStr} (h : t.all esEspacio = true) :
    minusculas t = t := by
  induction t with
  | nil => rfl
  | cons c r ih =>
    simp only [List.all_cons, Bool.and_eq_true] at h
    have hc : aMinuscula c = c := by
      unfold aMinuscula
      simp [esEspacio_no_mayuscula h.1]
    simpa [minusculas, hc] using ih h.2

theorem pyStrip_de_espacios {t : PyStr} (h : ∀ c ∈ t, esEspacio c = true) :
    pyStrip t = [] := by
  unfold pyStrip
  have h1 : t.dropWhile esEspacio = [] := List.dropWhile_eq_nil_iff.mpr h
  simp [h1]

/-- C10 (implicit): the query is lowercased and stripped before matching;
hence a query that is empty or all whitespace matches every product, and
the whole store comes back in insertion order. -/
theorem C10_consulta_en_blanco (inv : Inventario) (t : PyStr)
    (h : t.all esEspacio = true) : buscarPorNombre inv t = inv.productos := by
  unfold buscarPorNombre
  have hm : minusculas t = t := minusculas_de_espacios h
  have hs : pyStrip (minusculas t) = [] := by
    rw [hm]
    exact pyStrip_de_espacios (by simpa [List.all_eq_true] using h)
  rw [hs]
  refine List.filter_eq_self.mpr fun p _ => ?_
  rw [contiene_vacia]

/-- Witness for C10: a two-blank query on the Widget/Gadget store returns
the whole store. -/
theorem C10_consulta_en_blanco_witness :
    ((txt "  ").all esEspacio = true) ∧
    buscarPorNombre invWG (txt "  ") = invWG.productos :=
  ⟨by decide, C10_consulta_en_blanco invWG (txt "  ") (by decide)⟩

/-- C8 fails as stated: the code trims the query, so with the query
"wid " (trailing blank) on the Widget/Gadget store it returns Widget,
whereas no name contains "wid " under case-insensitive comparison. -/
theorem C8_contraejemplo :
    buscarPorNombre invWG (txt "wid ") ≠ buscarSegunEnunciado invWG (txt "wid ") := by
  decide

/-- C8 (amended): the search returns exactly the products whose name
contains the *trimmed* query under case-insensitive comparison, in the
store's insertion order (the result is a sublist of the product list); it
is a pure function of the store, and on a store holding Widget and Gadget
the query "wid" returns only Widget. -/
theorem C8_buscar_por_nombre (inv : Inventario) (t : PyStr) :
    (∀ p, p ∈ buscarPorNombre inv t ↔
      (p ∈ inv.productos ∧
        contiene (pyStrip (minusculas t)) (minusculas p.nombre) = true)) ∧
    List.Sublist (buscarPorNombre inv t) inv.productos ∧
    buscarPorNombre invWG (txt "wid") = [productoWidget] := by
  refine ⟨?_, ?_, by decide⟩
  · intro p
    unfold buscarPorNombre
    simp [List.mem_filter]
  · unfold buscarPorNombre
    exact List.filter_sublist _

/-- Witness for C8 at the scenario store: the membership characterisation
instantiated at Widget, plus the concrete scenario result. -/
theorem C8_buscar_por_nombre_witness :
    (productoWidget ∈ buscarPorNombre invWG (txt "wid") ↔
      (productoWidget ∈ invWG.productos ∧
        contiene (pyStrip (minusculas (txt "wid")))
          (minusculas productoWidget.nombre) = true)) ∧
    buscarPorNombre invWG (txt "wid") = [productoWidget] :=
  ⟨(C8_buscar_por_nombre invWG (txt "wid")).1 productoWidget,
    (C8_buscar_por_nombre invWG (txt "wid")).2.2⟩

/-! ### Claims C7 and C3: load tolerance and the persistence scenario -/

/-- C7: a non-blank line the loader rejects — wrong field count, a
non-numeric numeric field or a value failing `Producto`'s validation, or an
already-loaded id — contributes exactly one warning and nothing else, and
the remaining lines are processed exactly as before; concretely, a file
with one well-formed line and one malformed line loads exactly the
well-formed record, with one format warning recorded. -/
theorem C7_lineas_invalidas_se_saltan (inv : Inventario) (num carg : ℕ)
    (l : PyStr) (rest : List PyStr) :
    (pasoLinea inv.indicePorId l = .malFormato →
      procesarLineas inv num carg (l :: rest)
        = ((procesarLineas inv (num + 1) carg rest).1,
           Msg.advertenciaFormato num :: (procesarLineas inv (num + 1) carg rest).2.1,
           (procesarLineas inv (num + 1) carg rest).2.2)) ∧
    (pasoLinea inv.indicePorId l = .datosInvalidos →
      procesarLineas inv num carg (l :: rest)
        = ((procesarLineas inv (num + 1) carg rest).1,
           Msg.advertenciaDatos num :: (procesarLineas inv (num + 1) carg rest).2.1,
           (procesarLineas inv (num + 1) carg rest).2.2)) ∧
    (∀ i, pasoLinea inv.indicePorId l = .duplicado i →
      procesarLineas inv num carg (l :: rest)
        = ((procesarLineas inv (num + 1) carg rest).1,
           Msg.advertenciaDuplicado num i :: (procesarLineas inv (num + 1) carg rest).2.1,
           (procesarLineas inv (num + 1) carg rest).2.2)) ∧
    (cargarDesdeArchivo ⟨some (txt "1|Widget|5|9.99\n2|Gadget|3\n"), .ok, .ok⟩).1
      = ⟨[productoWidget], [(1, productoWidget)]⟩ ∧
    (cargarDesdeArchivo ⟨some (txt "1|Widget|5|9.99\n2|Gadget|3\n"), .ok, .ok⟩).2.2
      = [Msg.advertenciaFormato 2, Msg.infoCargados 1] := by
  refine ⟨?_, ?_, ?_, by decide, by decide⟩
  · intro h
    simp only [procesarLineas, h]
  · intro h
    simp only [procesarLineas, h]
  · intro i h
    simp only [procesarLineas, h]

/-- Witness for C7: a lone three-field line yields exactly one format
warning and leaves the store empty. -/
theorem C7_lineas_invalidas_se_saltan_witness :
    procesarLineas invVacio 1 0 [txt "2|Gadget|3"]
      = ((procesarLineas invVacio 2 0 []).1,
         Msg.advertenciaFormato 1 :: (procesarLineas invVacio 2 0 []).2.1,
         (procesarLineas invVacio 2 0 []).2.2) :=
  (C7_lineas_invalidas_se_saltan invVacio 1 0 (txt "2|Gadget|3") []).1 (by decide)

/-- C3: starting from the empty store over an empty writable file, adding
the product built from (1, "widget", 5, 9.99) leaves the file holding
exactly the single line `1|Widget|5|9.99` (name title-cased, delimiter
`|`), and reloading from that file yields a store of count 1 whose sole
product equals the added one. -/
theorem C3_agregar_persiste_y_recarga (p : Producto)
    (hp : Producto.init 1 (txt "widget") 5 (mkRat 999 100) = .ok p) :
    (agregarProducto invVacio ⟨some [], .ok, .ok⟩ p).2.2.1.contenido
      = some (txt "1|Widget|5|9.99" ++ [10]) ∧
    contarProductos
      (cargarDesdeArchivo (agregarProducto invVacio ⟨some [], .ok, .ok⟩ p).2.2.1).1 = 1 ∧
    (cargarDesdeArchivo (agregarProducto invVacio ⟨some [], .ok, .ok⟩ p).2.2.1).1.productos
      = [p] := by
  have h0 : Producto.init 1 (txt "widget") 5 (mkRat 999 100)
      = .ok ⟨1, txt "Widget", 5, mkRat 999 100⟩ := rfl
  rw [h0] at hp
  injection hp with hp'
  subst hp'
  exact ⟨by decide, by decide, by decide⟩

/-- Witness for C3 at the concrete constructed product. -/
theorem C3_agregar_persiste_y_recarga_witness :
    (agregarProducto invVacio ⟨some [], .ok, .ok⟩
        ⟨1, txt "Widget", 5, mkRat 999 100⟩).2.2.1.contenido
      = some (txt "1|Widget|5|9.99" ++ [10]) ∧
    contarProductos (cargarDesdeArchivo (agregarProducto invVacio ⟨some [], .ok, .ok⟩
        ⟨1, txt "Widget", 5, mkRat 999 100⟩).2.2.1).1 = 1 ∧
    (cargarDesdeArchivo (agregarProducto invVacio ⟨some [], .ok, .ok⟩
        ⟨1, txt "Widget", 5, mkRat 999 100⟩).2.2.1).1.productos
      = [⟨1, txt "Widget", 5, mkRat 999 100⟩] :=
  C3_agregar_persiste_y_recarga ⟨1, txt "Widget", 5, mkRat 999 100⟩ rfl

/-! ### Character classes, stripping and title-casing -/

theorem no_espacio {c : ℕ} (h : 33 ≤ c) : esEspacio c = false := by
  unfold esEspacio
  simp only [decide_eq_false_iff_not]
  omega

theorem esEspacio_aMinuscula (c : ℕ) : esEspacio (aMinuscula c) = esEspacio c := by
  unfold aMinuscula
  split_ifs with h
  · unfold esMayuscula at h
    simp only [decide_eq_true_eq] at h
    rw [no_espacio (by omega), no_espacio (by omega)]
  · rfl

theorem esEspacio_aMayuscula (c : ℕ) : esEspacio (aMayuscula c) = esEspacio c := by
  unfold aMayuscula
  split_ifs with h
  · unfold esMinuscula at h
    simp only [decide_eq_true_eq] at h
    rw [no_espacio (by omega), no_espacio (by omega)]
  · rfl

theorem esAlfabetica_aMinuscula (c : ℕ) : esAlfabetica (aMinuscula c) = esAlfabetica c := by
  unfold aMinuscula
  split_ifs with h
  · unfold esMayuscula at h
    simp only [decide_eq_true_eq] at h
    unfold esAlfabetica esMayuscula esMinuscula
    rw [Bool.eq_iff_iff]
    simp only [Bool.or_eq_true, decide_eq_true_eq]
    omega
  · rfl

theorem esAlfabetica_aMayuscula (c : ℕ) : esAlfabetica (aMayuscula c) = esAlfabetica c := by
  unfold aMayuscula
  split_ifs with h
  · unfold esMinuscula at h
    simp only [decide_eq_true_eq] at h
    unfold esAlfabetica esMayuscula esMinuscula
    rw [Bool.eq_iff_iff]
    simp only [Bool.or_eq_true, decide_eq_true_eq]
    omega
  · rfl

theorem aMinuscula_aMinuscula (c : ℕ) : aMinuscula (aMinuscula c) = aMinuscula c := by
  unfold aMinuscula esMayuscula
  split_ifs with h1 h2
  · simp only [decide_eq_true_eq] at h1 h2
    omega
  · rfl
  · rfl

theorem aMayuscula_aMayuscula (c : ℕ) : aMayuscula (aMayuscula c) = aMayuscula c := by
  unfold aMayuscula esMinuscula
  split_ifs with h1 h2
  · simp only [decide_eq_true_eq] at h1 h2
    omega
  · rfl
  · rfl

theorem head?_dropWhile_no {p : ℕ → Bool} {l : PyStr} {c : ℕ}
    (h : (l.dropWhile p).head? = some c) : p c = false := by
  induction l with
  | nil => simp [List.dropWhile] at h
  | cons x t ih =>
    rw [List.dropWhile_cons] at h
    split_ifs at h with hx
    · exact ih h
    · simp only [List.head?_cons, Option.some.injEq] at h
      subst h
      simpa using hx

theorem prefijo_head? {l₁ l₂ : PyStr} (h : List.IsPrefix l₁ l₂) (hne : l₁ ≠ []) :
    l₁.head? = l₂.head? := by
  obtain ⟨r, rfl⟩ := h
  cases l₁ with
  | nil => exact absurd rfl hne
  | cons a t => rfl

theorem head?_pyStrip_no_espacio {l : PyStr} {c : ℕ}
    (h : (pyStrip l).head? = some c) : esEspacio c = false := by
  unfold pyStrip at h
  have hsuf : List.IsSuffix ((l.dropWhile esEspacio).reverse.dropWhile esEspacio)
      (l.dropWhile esEspacio).reverse := List.dropWhile_suffix _
  have hpre : List.IsPrefix ((l.dropWhile esEspacio).reverse.dropWhile esEspacio).reverse
      (l.dropWhile esEspacio) := by
    have hp := List.reverse_prefix.mpr hsuf
    simpa using hp
  have hne : ((l.dropWhile esEspacio).reverse.dropWhile esEspacio).reverse ≠ [] := by
    intro hnil
    rw [hnil] at h
    simp at h
  rw [prefijo_head? hpre hne] at h
  exact head?_dropWhile_no h

theorem getLast?_pyStrip_no_espacio {l : PyStr} {c : ℕ}
    (h : (pyStrip l).getLast? = some c) : esEspacio c = false := by
  unfold pyStrip at h
  rw [List.getLast?_reverse] at h
  exact head?_dropWhile_no h

theorem dropWhile_eq_self_de_head {l : PyStr}
    (h : ∀ c, l.head? = some c → esEspacio c = false) : l.dropWhile esEspacio = l := by
  cases l with
  | nil => rfl
  | cons x t =>
    rw [List.dropWhile_cons, if_neg]
    simp [h x rfl]

theorem pyStrip_eq_self {l : PyStr}
    (h1 : ∀ c, l.head? = some c → esEspacio c = false)
    (h2 : ∀ c, l.getLast? = some c → esEspacio c = false) : pyStrip l = l := by
  unfold pyStrip
  rw [dropWhile_eq_self_de_head h1]
  have hrev : l.reverse.dropWhile esEspacio = l.reverse :=
    dropWhile_eq_self_de_head fun c hc => h2 c (by rwa [List.head?_reverse] at hc)
  rw [hrev, List.reverse_reverse]

/-- The character `s.title()` emits for `c` when the previous character was
cased (`b = true`) or not. -/
def cabeza (b : Bool) (c : ℕ) : ℕ :=
  if esAlfabetica c then (if b then aMinuscula c else aMayuscula c) else c

theorem tituloAux_cons (b : Bool) (c : ℕ) (t : PyStr) :
    tituloAux b (c :: t) = cabeza b c :: tituloAux (esAlfabetica c) t := by
  by_cases ha : esAlfabetica c <;> simp [tituloAux, cabeza, ha]

theorem esEspacio_cabeza (b : Bool) (c : ℕ) : esEspacio (cabeza b c) = esEspacio c := by
  unfold cabeza
  split_ifs with h1 h2
  · exact esEspacio_aMinuscula c
  · exact esEspacio_aMayuscula c
  · rfl

theorem esAlfabetica_cabeza (b : Bool) (c : ℕ) :
    esAlfabetica (cabeza b c) = esAlfabetica c := by
  unfold cabeza
  split_ifs with h1 h2
  · exact esAlfabetica_aMinuscula c
  · exact esAlfabetica_aMayuscula c
  · rfl

theorem cabeza_cabeza (b : Bool) (c : ℕ) : cabeza b (cabeza b c) = cabeza b c := by
  unfold cabeza
  by_cases ha : esAlfabetica c
  · cases b
    · simp only [ha, if_true, if_false, Bool.false_eq_true]
      rw [if_pos (by rw [esAlfabetica_aMayuscula]; exact ha)]
      exact aMayuscula_aMayuscula c
    · simp only [ha, if_true]
      rw [if_pos (by rw [esAlfabetica_aMinuscula]; exact ha)]
      exact aMinuscula_aMinuscula c
  · simp [ha]

theorem head?_tituloAux (b : Bool) (l : PyStr) :
    (tituloAux b l).head?.map esEspacio = l.head?.map esEspacio := by
  cases l with
  | nil => rfl
  | cons c t =>
    rw [tituloAux_cons]
    simp [esEspacio_cabeza]

theorem getLast?_tituloAux (b : Bool) (l : PyStr) :
    (tituloAux b l).getLast?.map esEspacio = l.getLast?.map esEspacio := by
  induction l generalizing b with
  | nil => rfl
  | cons c t ih =>
    cases t with
    | nil =>
      rw [tituloAux_cons]
      simp [tituloAux, esEspacio_cabeza]
    | cons d r =>
      rw [tituloAux_cons, tituloAux_cons, List.getLast?_cons_cons, ← tituloAux_cons,
        ih, List.getLast?_cons_cons]

theorem tituloAux_idem (b : Bool) (l : PyStr) :
    tituloAux b (tituloAux b l) = tituloAux b l := by
  induction l generalizing b with
  | nil => rfl
  | cons c t ih =>
    rw [tituloAux_cons, tituloAux_cons, cabeza_cabeza, esAlfabetica_cabeza, ih]

theorem pyStrip_titulo_pyStrip (l : PyStr) :
    pyStrip (titulo (pyStrip l)) = titulo (pyStrip l) := by
  refine pyStrip_eq_self ?_ ?_
  · intro c hc
    unfold titulo at hc
    have hmap := head?_tituloAux false (pyStrip l)
    cases hh : (pyStrip l).head? with
    | none => rw [hh, hc] at hmap; simp at hmap
    | some d =>
      rw [hh, hc] at hmap
      simp only [Option.map_some', Option.some.injEq] at hmap
      rw [hmap]
      exact head?_pyStrip_no_espacio hh
  · intro c hc
    unfold titulo at hc
    have hmap := getLast?_tituloAux false (pyStrip l)
    cases hh : (pyStrip l).getLast? with
    | none => rw [hh, hc] at hmap; simp at hmap
    | some d =>
      rw [hh, hc] at hmap
      simp only [Option.map_some', Option.some.injEq] at hmap
      rw [hmap]
      exact getLast?_pyStrip_no_espacio hh

/-- `strip().title()` normalisation is idempotent: re-normalising an
already-normalised name gives it back. -/
theorem normalizacion_idem (n : PyStr) :
    titulo (pyStrip (titulo (pyStrip n))) = titulo (pyStrip n) := by
  rw [pyStrip_titulo_pyStrip]
  unfold titulo
  exact tituloAux_idem false _

/-! ### Digit strings and numeric round-trips -/

theorem digitos_strDeNatAux :
    ∀ fuel n, n < fuel → ∀ c ∈ strDeNatAux fuel n, 48 ≤ c ∧ c ≤ 57 := by
  intro fuel
  induction fuel with
  | zero => intro n hn; omega
  | succ f ih =>
    intro n hn c hc
    unfold strDeNatAux at hc
    split_ifs at hc with h10
    · simp at hc
      omega
    · rcases List.mem_append.mp hc with hc1 | hc1
      · have hdiv : n / 10 < f := by
          have := Nat.div_lt_self (by omega : 0 < n) (by norm_num : 1 < 10)
          omega
        exact ih (n / 10) hdiv c hc1
      · simp at hc1
        have : n % 10 < 10 := Nat.mod_lt _ (by norm_num)
        omega

theorem strDeNatAux_ne_nil : ∀ fuel n, n < fuel → strDeNatAux fuel n ≠ [] := by
  intro fuel
  cases fuel with
  | zero => intro n hn; omega
  | succ f =>
    intro n hn
    unfold strDeNatAux
    split_ifs with h10
    · simp
    · simp

theorem valor_append_digito (l : PyStr) (c : ℕ) :
    valorDigitos (l ++ [c]) = valorDigitos l * 10 + (c - 48) := by
  unfold valorDigitos
  rw [List.foldl_append]
  rfl

theorem valor_strDeNatAux : ∀ fuel n, n < fuel → valorDigitos (strDeNatAux fuel n) = n := by
  intro fuel
  induction fuel with
  | zero => intro n hn; omega
  | succ f ih =>
    intro n hn
    unfold strDeNatAux
    split_ifs with h10
    · unfold valorDigitos
      simp only [List.foldl_cons, List.foldl_nil]
      omega
    · have hdiv : n / 10 < f := by
        have := Nat.div_lt_self (by omega : 0 < n) (by norm_num : 1 < 10)
        omega
      rw [valor_append_digito, ih (n / 10) hdiv]
      have h1 : n % 10 < 10 := Nat.mod_lt _ (by norm_num)
      have h2 := Nat.div_add_mod n 10
      omega

theorem longitud_strDeNatAux :
    ∀ fuel n k, n < fuel → 0 < k → n < 10 ^ k → (strDeNatAux fuel n).length ≤ k := by
  intro fuel
  induction fuel with
  | zero => intro n k hn; omega
  | succ f ih =>
    intro n k hn hk hnk
    unfold strDeNatAux
    split_ifs with h10
    · simpa using hk
    · have hdiv : n / 10 < f := by
        have := Nat.div_lt_self (by omega : 0 < n) (by norm_num : 1 < 10)
        omega
    -- n ≥ 10 forces k ≥ 2, and n / 10 < 10 ^ (k - 1)
      have hk2 : 2 ≤ k := by
        by_contra hlt
        have hk1 : k = 1 := by omega
        rw [hk1] at hnk
        simp at hnk
        omega
      have hn10 : n / 10 < 10 ^ (k - 1) := by
        rw [Nat.div_lt_iff_lt_mul (by norm_num : 0 < 10)]
        have : 10 ^ (k - 1) * 10 = 10 ^ k := by
          rw [← pow_succ]
          congr 1
          omega
        omega
      have hrec := ih (n / 10) (k - 1) hdiv (by omega) hn10
      rw [List.length_append]
      simp only [List.length_cons, List.length_nil]
      omega

theorem digitos_strDeNat (n : ℕ) : ∀ c ∈ strDeNat n, 48 ≤ c ∧ c ≤ 57 :=
  digitos_strDeNatAux (n + 1) n (by omega)

theorem strDeNat_ne_nil (n : ℕ) : strDeNat n ≠ [] :=
  strDeNatAux_ne_nil (n + 1) n (by omega)

theorem valor_strDeNat (n : ℕ) : valorDigitos (strDeNat n) = n :=
  valor_strDeNatAux (n + 1) n (by omega)

theorem longitud_strDeNat {n k : ℕ} (hk : 0 < k) (h : n < 10 ^ k) :
    (strDeNat n).length ≤ k :=
  longitud_strDeNatAux (n + 1) n k (by omega) hk h

theorem sonDigitos_de {l : PyStr} (h : ∀ c ∈ l, 48 ≤ c ∧ c ≤ 57) :
    sonDigitos l = true := by
  unfold sonDigitos
  rw [List.all_eq_true]
  intro c hc
  unfold esDigito
  simp only [decide_eq_true_eq]
  exact h c hc

theorem valor_ceros (j : ℕ) (l : PyStr) :
    valorDigitos (List.replicate j 48 ++ l) = valorDigitos l := by
  unfold valorDigitos
  rw [List.foldl_append]
  congr 1
  induction j with
  | zero => rfl
  | succ i ih =>
    rw [List.replicate_succ, List.foldl_cons]
    simpa using ih

theorem pyStrip_eq_self_de_mem {l : PyStr} (h : ∀ c ∈ l, esEspacio c = false) :
    pyStrip l = l := by
  refine pyStrip_eq_self (fun c hc => ?_) (fun c hc => ?_)
  · exact h c (by cases l with | nil => simp at hc | cons x t => simp at hc; simp [hc])
  · obtain ⟨hne, rfl⟩ := List.mem_getLast?_eq_getLast hc
    exact h _ (List.getLast_mem hne)

theorem pyInt_strDeNat (a : ℕ) : pyInt (strDeNat a) = some (a : ℤ) := by
  have hd := digitos_strDeNat a
  have hne := strDeNat_ne_nil a
  unfold pyInt
  rw [pyStrip_eq_self_de_mem fun c hc => no_espacio (by have := hd c hc; omega)]
  rcases hl : strDeNat a with _ | ⟨c, rest⟩
  · exact absurd hl hne
  · have hc : 48 ≤ c ∧ c ≤ 57 := hd c (by rw [hl]; exact List.mem_cons_self c rest)
    dsimp only
    rw [if_neg (by omega), if_neg (by omega),
      if_pos (sonDigitos_de fun x hx => hd x (by rw [hl]; exact hx))]
    rw [← hl, valor_strDeNat]

theorem pyInt_strDeInt {i : ℤ} (h : 0 ≤ i) : pyInt (strDeInt i) = some i := by
  unfold strDeInt
  rw [if_neg (not_lt.mpr h), pyInt_strDeNat, Int.natAbs_of_nonneg h]

/-! ### Splitting on a separator -/

theorem pySplit_cons_sep (sep : ℕ) (t : PyStr) :
    pySplit sep (sep :: t) = [] :: pySplit sep t := by
  simp [pySplit]

theorem pySplit_cons_no {sep c : ℕ} (t : PyStr) (hc : c ≠ sep) :
    pySplit sep (c :: t) = match pySplit sep t with
      | [] => [[c]]
      | h :: r => (c :: h) :: r := by
  simp [pySplit, hc]

theorem pySplit_append {sep : ℕ} {a : PyStr} (b : PyStr) (h : sep ∉ a) :
    pySplit sep (a ++ sep :: b) = a :: pySplit sep b := by
  induction a with
  | nil =>
    simp only [List.nil_append]
    exact pySplit_cons_sep sep b
  | cons c a' ih =>
    have hc : c ≠ sep := fun hcs => h (hcs ▸ List.mem_cons_self c a')
    have ha' : sep ∉ a' := fun hs => h (List.mem_cons_of_mem c hs)
    rw [List.cons_append, pySplit_cons_no _ hc, ih ha']

theorem pySplit_sin_sep {sep : ℕ} {a : PyStr} (h : sep ∉ a) : pySplit sep a = [a] := by
  induction a with
  | nil => rfl
  | cons c a' ih =>
    have hc : c ≠ sep := fun hcs => h (hcs ▸ List.mem_cons_self c a')
    have ha' : sep ∉ a' := fun hs => h (List.mem_cons_of_mem c hs)
    rw [pySplit_cons_no _ hc, ih ha']

/-! ### The float repr round-trip -/

theorem expDec_dvd {d : ℕ} (h : d ∣ 10 ^ d) : d ∣ 10 ^ expDec d := by
  unfold expDec
  cases hf : (List.range (d + 1)).find? (fun k => decide (d ∣ 10 ^ k)) with
  | none => simpa using h
  | some k =>
    have hp := List.find?_some hf
    simpa using hp

theorem pyFloat_digitos {ent frac : PyStr}
    (hent : ∀ c ∈ ent, 48 ≤ c ∧ c ≤ 57) (hfrac : ∀ c ∈ frac, 48 ≤ c ∧ c ≤ 57)
    (hne : ent ≠ []) :
    pyFloat (ent ++ 46 :: frac)
      = some (mkRat (valorDigitos ent * 10 ^ frac.length + valorDigitos frac)
          (10 ^ frac.length)) := by
  have hall : ∀ c ∈ ent ++ 46 :: frac, esEspacio c = false := by
    intro c hc
    rcases List.mem_append.mp hc with h1 | h1
    · exact no_espacio (by have := hent c h1; omega)
    · rcases List.mem_cons.mp h1 with rfl | h2
      · exact no_espacio (by omega)
      · exact no_espacio (by have := hfrac c h2; omega)
  unfold pyFloat
  rw [pyStrip_eq_self_de_mem hall]
  rcases hl : ent with _ | ⟨c, rest⟩
  · exact absurd hl hne
  · subst hl
    have hc : 48 ≤ c ∧ c ≤ 57 := hent c (List.mem_cons_self c rest)
    rw [List.cons_append]
    dsimp only
    have hsp : pySplit 46 (if (c = 45 || c = 43) = true then rest ++ 46 :: frac
        else c :: (rest ++ 46 :: frac)) = (c :: rest) :: pySplit 46 frac := by
      rw [if_neg (by simp; omega)]
      rw [← List.cons_append]
      exact pySplit_append frac (fun hmem => by have := hent 46 hmem; omega)
    rw [hsp, pySplit_sin_sep (fun hmem => by have := hfrac 46 hmem; omega)]
    dsimp only
    have hguard : ((!(c :: rest).isEmpty || !frac.isEmpty) && sonDigitos (c :: rest)
        && sonDigitos frac) = true := by
      simp only [Bool.and_eq_true, Bool.or_eq_true]
      exact ⟨⟨Or.inl (by simp), sonDigitos_de hent⟩, sonDigitos_de hfrac⟩
    rw [if_pos hguard, if_neg (by omega : ¬ c = 45), one_mul]

theorem pyFloat_reprFloat {q : ℚ} (hq : 0 ≤ q) (hdec : EsDecimal q) :
    pyFloat (reprFloat q) = some q := by
  have hdd : q.den ∣ 10 ^ expDec q.den := expDec_dvd hdec
  obtain ⟨t, ht⟩ := hdd
  have hdpos : 0 < q.den := q.pos
  have h10k : (0:ℕ) < 10 ^ expDec q.den := pow_pos (by norm_num) _
  have htpos : 0 < t := by
    rcases Nat.eq_zero_or_pos t with rfl | h
    · rw [Nat.mul_zero] at ht; omega
    · exact h
  have hdivt : (10:ℤ) ^ expDec q.den / (q.den : ℤ) = (t : ℤ) := by
    have hcast : ((10:ℤ)) ^ expDec q.den = (q.den : ℤ) * (t : ℤ) := by exact_mod_cast ht
    rw [hcast]
    exact Int.mul_ediv_cancel_left _ (by exact_mod_cast hdpos.ne')
  have hnum : 0 ≤ q.num := Rat.num_nonneg.mpr hq
  have htq : ((t:ℕ) : ℚ) ≠ 0 := by
    exact_mod_cast htpos.ne'
  unfold reprFloat
  dsimp only
  rw [hdivt]
  have hm0 : 0 ≤ q.num * (t:ℤ) := by positivity
  rw [if_neg (not_lt.mpr hm0)]
  simp only [List.nil_append]
  set k := expDec q.den with hk
  set a := (q.num * (t:ℤ)).natAbs with ha
  have haz : (a : ℤ) = q.num * t := Int.natAbs_of_nonneg hm0
  have hdig1 := digitos_strDeNat (a / 10 ^ k)
  have hne1 := strDeNat_ne_nil (a / 10 ^ k)
  by_cases hk0 : k = 0
  · -- integral value: the fractional part is the single digit 0
    rw [if_pos hk0]
    have hden1 : q.den = 1 ∧ t = 1 := by
      rw [hk0, pow_zero] at ht
      have hd1 : q.den = 1 := Nat.dvd_one.mp ⟨t, ht⟩
      refine ⟨hd1, ?_⟩
      rw [hd1] at ht
      omega
    have hfr : ∀ c ∈ ([48] : PyStr), 48 ≤ c ∧ c ≤ 57 := by
      intro c hc; simp at hc; omega
    have heq := pyFloat_digitos hdig1 hfr hne1
    rw [List.append_assoc, List.singleton_append]
    rw [heq]
    congr 1
    rw [hk0]
    simp only [pow_zero, Nat.div_one]
    have hv0 : valorDigitos [48] = 0 := rfl
    have hlen : ([48] : PyStr).length = 1 := rfl
    rw [hv0, hlen, valor_strDeNat, Rat.mkRat_eq_div]
    have haq : ((a : ℕ) : ℚ) = (q.num : ℚ) := by
      have : (a : ℤ) = q.num := by rw [haz, hden1.2]; ring
      exact_mod_cast this
    have hqnum : q = (q.num : ℚ) := by
      conv_lhs => rw [← Rat.num_div_den q]
      rw [hden1.1]
      simp
    push_cast
    rw [haq, add_zero, mul_div_cancel_right₀ _ (by norm_num : (10:ℚ) ≠ 0)]
    exact hqnum.symm
  · -- k ≥ 1: the fractional part is a % 10^k padded to k digits
    rw [if_neg hk0]
    have hmod : a % 10 ^ k < 10 ^ k := Nat.mod_lt _ h10k
    have hlenle : (strDeNat (a % 10 ^ k)).length ≤ k :=
      longitud_strDeNat (by omega) hmod
    have hfr : ∀ c ∈ List.replicate (k - (strDeNat (a % 10 ^ k)).length) 48
        ++ strDeNat (a % 10 ^ k), 48 ≤ c ∧ c ≤ 57 := by
      intro c hc
      rcases List.mem_append.mp hc with h1 | h1
      · have := List.eq_of_mem_replicate h1
        omega
      · exact digitos_strDeNat _ c h1
    have heq := pyFloat_digitos hdig1 hfr hne1
    rw [List.append_assoc, List.singleton_append]
    rw [heq]
    congr 1
    have hlen : (List.replicate (k - (strDeNat (a % 10 ^ k)).length) 48
        ++ strDeNat (a % 10 ^ k)).length = k := by
      rw [List.length_append, List.length_replicate]
      omega
    rw [hlen, valor_ceros, valor_strDeNat, valor_strDeNat]
    have hdm : a / 10 ^ k * 10 ^ k + a % 10 ^ k = a := by
      rw [Nat.mul_comm]
      exact Nat.div_add_mod a (10 ^ k)
    have hdmz : ((a / 10 ^ k : ℕ) : ℤ) * 10 ^ k + ((a % 10 ^ k : ℕ) : ℤ) = (a : ℤ) := by
      exact_mod_cast hdm
    rw [hdmz, Rat.mkRat_eq_div]
    have e1 : ((a : ℕ) : ℚ) = (q.num : ℚ) * (t : ℚ) := by
      exact_mod_cast haz
    have e2 : ((10 ^ k : ℕ) : ℚ) = (q.den : ℚ) * (t : ℚ) := by
      exact_mod_cast ht
    push_cast
    push_cast at e1 e2
    rw [e1, e2, mul_div_mul_right _ _ htq]
    exact Rat.num_div_den q

/-! ### Serialize-then-parse of a whole line (claim C2) -/

theorem head?_append_izq {a : PyStr} (b : PyStr) (h : a ≠ []) :
    (a ++ b).head? = a.head? := by
  cases a with
  | nil => exact absurd rfl h
  | cons x t => rfl

theorem getLast?_append_der (a : PyStr) {b : PyStr} (h : b ≠ []) :
    (a ++ b).getLast? = b.getLast? := by
  rw [← List.head?_reverse, List.reverse_append,
    head?_append_izq _ (by simpa using h), List.head?_reverse]

theorem reprFloat_estructura {q : ℚ} (hq : 0 ≤ q) :
    ∃ ent frac, reprFloat q = ent ++ 46 :: frac ∧
      (∀ c ∈ ent, 48 ≤ c ∧ c ≤ 57) ∧ (∀ c ∈ frac, 48 ≤ c ∧ c ≤ 57) ∧
      ent ≠ [] ∧ frac ≠ [] := by
  have hnum : 0 ≤ q.num := Rat.num_nonneg.mpr hq
  have hdiv0 : 0 ≤ (10:ℤ) ^ expDec q.den / (q.den : ℤ) :=
    Int.ediv_nonneg (by positivity) (by positivity)
  have hm0 : 0 ≤ q.num * ((10:ℤ) ^ expDec q.den / (q.den : ℤ)) := mul_nonneg hnum hdiv0
  unfold reprFloat
  dsimp only
  rw [if_neg (not_lt.mpr hm0)]
  simp only [List.nil_append]
  by_cases hk0 : expDec q.den = 0
  · rw [if_pos hk0]
    refine ⟨strDeNat _, [48], by rw [List.append_assoc, List.singleton_append],
      digitos_strDeNat _, ?_, strDeNat_ne_nil _, by simp⟩
    intro c hc
    simp at hc
    omega
  · rw [if_neg hk0]
    refine ⟨strDeNat _, _, by rw [List.append_assoc, List.singleton_append],
      digitos_strDeNat _, ?_, strDeNat_ne_nil _, ?_⟩
    · intro c hc
      rcases List.mem_append.mp hc with h1 | h1
      · have := List.eq_of_mem_replicate h1
        omega
      · exact digitos_strDeNat _ c h1
    · intro hnil
      exact strDeNat_ne_nil _ (List.append_eq_nil.mp hnil).2

theorem mem_de_head? {l : PyStr} {c : ℕ} (h : l.head? = some c) : c ∈ l := by
  cases l with
  | nil => simp at h
  | cons x t =>
    simp at h
    simp [h]

theorem mem_de_getLast? {l : PyStr} {c : ℕ} (h : l.getLast? = some c) : c ∈ l := by
  obtain ⟨hx, rfl⟩ := List.mem_getLast?_eq_getLast h
  exact List.getLast_mem hx

theorem getLast?_cons_ne {x : ℕ} {t : PyStr} (h : t ≠ []) :
    (x :: t).getLast? = t.getLast? := by
  rw [← List.head?_reverse, List.reverse_cons,
    head?_append_izq _ (by simpa using h), List.head?_reverse]

theorem pasoLinea_lineaDe {p : Producto} (hid : 0 < p.id) (hcant : 0 ≤ p.cantidad)
    (hprec : 0 ≤ p.precio) (hdec : EsDecimal p.precio)
    (hsep : SEPARADOR ∉ p.nombre) (hnom : titulo (pyStrip p.nombre) = p.nombre) :
    pasoLinea [] (lineaDe p) = .valida p := by
  obtain ⟨ent, frac, hrf, hent, hfrac, hene, hfne⟩ := reprFloat_estructura hprec
  unfold SEPARADOR at hsep
  have hA : strDeInt p.id = strDeNat p.id.natAbs := if_neg (not_lt.mpr (le_of_lt hid))
  have hC : strDeInt p.cantidad = strDeNat p.cantidad.natAbs := if_neg (not_lt.mpr hcant)
  have hline : lineaDe p = strDeNat p.id.natAbs ++ 124 ::
      (p.nombre ++ 124 :: (strDeNat p.cantidad.natAbs ++ 124 :: reprFloat p.precio)) := by
    unfold lineaDe SEPARADOR
    rw [hA, hC]
    simp [List.append_assoc]
  have hne : lineaDe p ≠ [] := by
    rw [hline]
    intro h
    exact strDeNat_ne_nil _ (List.append_eq_nil.mp h).1
  have hstrip : pyStrip (lineaDe p) = lineaDe p := by
    refine pyStrip_eq_self (fun c hc => ?_) (fun c hc => ?_)
    · rw [hline, head?_append_izq _ (strDeNat_ne_nil _)] at hc
      have := digitos_strDeNat p.id.natAbs c (mem_de_head? hc)
      exact no_espacio (by omega)
    · rw [hline, getLast?_append_der _ (by simp),
        getLast?_cons_ne (by simp),
        getLast?_append_der _ (by simp),
        getLast?_cons_ne (by simp),
        getLast?_append_der _ (by simp),
        getLast?_cons_ne (by rw [hrf]; simp),
        hrf, getLast?_append_der _ (by simp),
        getLast?_cons_ne hfne] at hc
      have := hfrac c (mem_de_getLast? hc)
      exact no_espacio (by omega)
  have hnorf : (124 : ℕ) ∉ reprFloat p.precio := by
    intro hm
    rw [hrf] at hm
    rcases List.mem_append.mp hm with h1 | h1
    · have := hent _ h1
      omega
    · rcases List.mem_cons.mp h1 with h2 | h2
      · omega
      · have := hfrac _ h2
        omega
  have hsplit : pySplit 124 (lineaDe p) = [strDeNat p.id.natAbs, p.nombre,
      strDeNat p.cantidad.natAbs, reprFloat p.precio] := by
    rw [hline,
      pySplit_append _ (fun hm => by have := digitos_strDeNat _ _ hm; omega),
      pySplit_append _ hsep,
      pySplit_append _ (fun hm => by have := digitos_strDeNat _ _ hm; omega),
      pySplit_sin_sep hnorf]
  have hintA : pyInt (strDeNat p.id.natAbs) = some p.id := by
    rw [← hA]
    exact pyInt_strDeInt (le_of_lt hid)
  have hintC : pyInt (strDeNat p.cantidad.natAbs) = some p.cantidad := by
    rw [← hC]
    exact pyInt_strDeInt hcant
  have hfD : pyFloat (reprFloat p.precio) = some p.precio := pyFloat_reprFloat hprec hdec
  have hie : (lineaDe p).isEmpty = false := by
    cases hl : lineaDe p with
    | nil => exact absurd hl hne
    | cons x t => rfl
  have hinit : Producto.init p.id p.nombre p.cantidad p.precio = .ok p := by
    unfold Producto.init
    rw [if_neg (by omega), if_neg (not_lt.mpr hcant), if_neg (not_lt.mpr hprec), hnom]
  unfold pasoLinea SEPARADOR
  dsimp only
  rw [hstrip, hie]
  simp only [Bool.false_eq_true, if_false]
  rw [hsplit]
  dsimp only
  rw [hintA, hintC, hfD]
  dsimp only
  rw [hinit]
  rfl

/-- C2 fails as stated for names containing the delimiter: the product
built from (1, "a|b", 0, 0) constructs fine (normalised name "A|B"), but
its serialized line splits into five fields, so the load-path parse rejects
the line instead of returning an equal record. -/
theorem C2_contraejemplo :
    Producto.init 1 (txt "a|b") 0 0 = .ok ⟨1, txt "A|B", 0, 0⟩ ∧
    pasoLinea [] (lineaDe ⟨1, txt "A|B", 0, 0⟩) = .malFormato :=
  ⟨rfl, by decide⟩

/-- C2 (amended): for every id > 0, quantity ≥ 0 and decimal-valued price
≥ 0, and any name whose normalised form does not contain the delimiter,
constructing the `Producto` succeeds and the loader parses its serialized
four-field line back to exactly that record — same id, name, quantity and
price. -/
theorem C2_ida_y_vuelta (i : ℤ) (n : PyStr) (c : ℤ) (q : ℚ)
    (hi : 0 < i) (hc : 0 ≤ c) (hq : 0 ≤ q) (hdec : EsDecimal q)
    (hsep : SEPARADOR ∉ titulo (pyStrip n)) :
    ∃ p, Producto.init i n c q = .ok p ∧ pasoLinea [] (lineaDe p) = .valida p := by
  refine ⟨⟨i, titulo (pyStrip n), c, q⟩, ?_, ?_⟩
  · unfold Producto.init
    rw [if_neg (by omega), if_neg (not_lt.mpr hc), if_neg (not_lt.mpr hq)]
  · exact pasoLinea_lineaDe hi hc hq hdec hsep (normalizacion_idem n)

/-- Witness for C2 (amended) at the concrete input (1, "widget", 5, 9.99). -/
theorem C2_ida_y_vuelta_witness :
    ∃ p, Producto.init 1 (txt "widget") 5 (mkRat 999 100) = .ok p ∧
      pasoLinea [] (lineaDe p) = .valida p :=
  C2_ida_y_vuelta 1 (txt "widget") 5 (mkRat 999 100) (by decide) (by decide)
    (by decide) (by decide) (by decide)
